import Mathlib

/-!
Verification of the worktree resolution and lifecycle protocol of the
twig repository.  The TypeScript sources are shallowly embedded: pure
string processing becomes functions on `List Char` / `String`, and every
effectful operation (git invocations, filesystem probes, prompts) is
recorded in an explicit trace of `Effect` values computed from an
environment `Env` that fixes the answers the external tools would give.
-/

set_option maxHeartbeats 1000000

deriving instance DecidableEq for Except

/-- Whitespace recognised by the string trimming in the sources
(the JS `trim` on the ASCII range). -/
def isWs (c : Char) : Bool := c = ' ' || c = '\t' || c = '\n' || c = '\r'

/-- Drop leading and trailing whitespace, as the JS `trim` does. -/
def trimChars (cs : List Char) : List Char :=
  ((cs.dropWhile isWs).reverse.dropWhile isWs).reverse

/-- Split a character list at every occurrence of `sep`, JS
`String.prototype.split` semantics: the empty input yields one empty
piece, and separators at either end yield empty pieces. -/
def splitChar (sep : Char) : List Char → List (List Char)
  | [] => [[]]
  | c :: cs =>
    if c = sep then [] :: splitChar sep cs
    else
      match splitChar sep cs with
      | [] => [[c]]
      | l :: ls => (c :: l) :: ls

/-- Split into lines at newline characters, as `stdout.split("\n")`. -/
def splitNl (cs : List Char) : List (List Char) := splitChar '\n' cs

/-- Join pieces with a separator character, inverse of `splitChar`. -/
def joinChar (sep : Char) : List (List Char) → List Char
  | [] => []
  | [l] => l
  | l :: ls => l ++ sep :: joinChar sep ls

/-- Number of positions at which `pat` occurs in `s` (suffix positions
whose prefix is `pat`). -/
def countSub (pat : List Char) : List Char → Nat
  | [] => if pat.isPrefixOf [] then 1 else 0
  | c :: cs => (if pat.isPrefixOf (c :: cs) then 1 else 0) + countSub pat cs

/-- Substring test, the JS `String.prototype.includes`. -/
def hasSub (pat : List Char) (s : List Char) : Bool := countSub pat s != 0

/-- A single quote character, used to assemble the error messages of the
sources without an apostrophe in a string literal. -/
def quoteCh : String := String.mk [Char.ofNat 39]

/-! ## Worktree listing parser (src/utils/git/parseWorktrees.ts) -/

/-- One parsed record of `git worktree list --porcelain` output. -/
structure WorktreeItem where
  path : String
  branch : Option String
  head : Option String

deriving Repr, DecidableEq

/-- The in-progress record `cur` of `parseWorktreeOutput`. -/
structure CurItem where
  path : Option String
  branch : Option String
  head : Option String

deriving Repr, DecidableEq

/-- The initial empty `cur` object. -/
def initCur : CurItem := ⟨none, none, none⟩

/-- Flush `cur` into the result list when its path is truthy, the JS
`if (cur.path) items.push(cur)`. -/
def flushCur (cur : CurItem) (items : List WorktreeItem) : List WorktreeItem :=
  match cur.path with
  | some p => if p != "" then items ++ [⟨p, cur.branch, cur.head⟩] else items
  | none => items

/-- Strip a leading `refs/heads/`, the anchored `replace` of the source. -/
def stripRefsHeads (cs : List Char) : List Char :=
  if ("refs/heads/").toList.isPrefixOf cs then cs.drop 11 else cs

/-- One iteration of the parsing loop of `parseWorktreeOutput`:
skip blank lines, start a new record on `worktree `, record `branch `
(with `refs/heads/` stripped) and `HEAD ` values, ignore unknown
prefixes. -/
def stepLine : CurItem × List WorktreeItem → List Char → CurItem × List WorktreeItem
  | (cur, items), line =>
    if (trimChars line).isEmpty then (cur, items)
    else if ("worktree ").toList.isPrefixOf line then
      (⟨some (String.mk (trimChars (line.drop 9))), none, none⟩, flushCur cur items)
    else if ("branch ").toList.isPrefixOf line then
      ({ cur with branch := some (String.mk (stripRefsHeads (trimChars (line.drop 7)))) }, items)
    else if ("HEAD ").toList.isPrefixOf line then
      ({ cur with head := some (String.mk (trimChars (line.drop 5))) }, items)
    else (cur, items)

/-- Run the parsing loop over a list of lines and flush the final
record. -/
def parseLines (ls : List (List Char)) : List WorktreeItem :=
  let st := ls.foldl stepLine (initCur, [])
  flushCur st.fst st.snd

/-- The core parser `parseWorktreeOutput` of
src/utils/git/parseWorktrees.ts, shared by the async and sync entry
points. -/
def parseWorktreeOutput (stdout : String) : List WorktreeItem :=
  parseLines (splitNl stdout.toList)

/-! ## Valid block-structured listings (for the round-trip property) -/

/-- One block of a valid listing: a `worktree <path>` header line
followed by further lines of the block. -/
structure WtBlock where
  path : String
  extra : List String

deriving Repr, DecidableEq

/-- The lines a block contributes to the listing. -/
def blockLines (b : WtBlock) : List (List Char) :=
  ("worktree " ++ b.path).toList :: b.extra.map String.toList

/-- Render a list of blocks as the newline-joined listing text. -/
def renderListing (bs : List WtBlock) : String :=
  String.mk (joinChar '\n' (bs.map blockLines).flatten)

/-- A block body line is valid when it spans no newline and does not
start a new record. -/
def goodLineB (l : List Char) : Bool :=
  !(l.contains '\n') && !(("worktree ").toList.isPrefixOf l)

/-- A block is valid when its path is newline-free and non-empty after
trimming and all its body lines are valid. -/
def goodBlockB (b : WtBlock) : Bool :=
  !(b.path.toList.contains '\n') && !(trimChars b.path.toList).isEmpty
    && b.extra.all (fun s => goodLineB s.toList)

/-- Effect of one parsed line on the in-progress record only. -/
def stepCur (cur : CurItem) (line : List Char) : CurItem :=
  (stepLine (cur, []) line).fst

/-- The in-progress record after a block's lines have been consumed. -/
def blockCur (b : WtBlock) : CurItem :=
  b.extra.foldl (fun cur s => stepCur cur s.toList)
    ⟨some (String.mk (trimChars b.path.toList)), none, none⟩

/-- The record the parser produces for one valid block. -/
def blockRecord (b : WtBlock) : WorktreeItem :=
  ⟨String.mk (trimChars b.path.toList), (blockCur b).branch, (blockCur b).head⟩

/-- Run the parsing loop from an arbitrary intermediate state. -/
def runLines (ls : List (List Char)) (cur : CurItem)
    (items : List WorktreeItem) : List WorktreeItem :=
  let st := ls.foldl stepLine (cur, items)
  flushCur st.fst st.snd

/-! ## Validation utilities (src/utils/validation.ts) -/

/-- Error used when a branch name is empty or whitespace. -/
def emptyBranchMsg : String := "Branch name cannot be empty"

/-- The invalid-branch-name error message of the source. -/
def invalidBranchMsg (name msg : String) : String :=
  "Invalid branch name " ++ quoteCh ++ name ++ quoteCh ++ ": " ++ msg

/-- First-character test on a character list. -/
def headIs (c : Char) : List Char → Bool
  | [] => false
  | x :: _ => x == c

/-- Last-character test on a character list. -/
def lastIs (c : Char) (l : List Char) : Bool := headIs c l.reverse

/-- The branch-name validator `validateBranchName`, with the rule list
checked in source order; the first matching rule produces the error. -/
def validateBranchName (name : String) : Except String Unit :=
  if (trimChars name.toList).isEmpty then .error emptyBranchMsg
  else if headIs '.' name.toList then
    .error (invalidBranchMsg name "cannot start with a dot")
  else if hasSub ("..").toList name.toList || hasSub ("@\x7b").toList name.toList
      || name.toList.contains '\\' then
    .error (invalidBranchMsg name "cannot contain .., @\x7b, or \\")
  else if name.toList.any (fun c => isWs c || c == '~' || c == '^' || c == ':'
      || c == '?' || c == '*' || c == '[' || c == ']') then
    .error (invalidBranchMsg name "cannot contain spaces or ~^:?*[]")
  else if lastIs '/' name.toList then
    .error (invalidBranchMsg name "cannot end with /")
  else if (".lock").toList.isSuffixOf name.toList then
    .error (invalidBranchMsg name "cannot end with .lock")
  else if headIs '/' name.toList || hasSub ("//").toList name.toList then
    .error (invalidBranchMsg name "cannot start with / or contain //")
  else .ok ()

/-- Decimal value of a digit run, most significant digit first. -/
def digitsVal (ds : List Char) : Nat :=
  ds.foldl (fun a c => a * 10 + (c.toNat - 48)) 0

/-- Longest leading digit run, or none when there is no digit. -/
def digitsNat (s : List Char) : Option Nat :=
  let ds := s.takeWhile Char.isDigit
  if ds.isEmpty then none else some (digitsVal ds)

/-- Sign-and-digits stage of `Number.parseInt(s, 10)`. -/
def jsParseIntCore : List Char → Option Int
  | [] => none
  | c :: r =>
    if c = '-' then (digitsNat r).map (fun n => -(n : Int))
    else if c = '+' then (digitsNat r).map (fun n => (n : Int))
    else (digitsNat (c :: r)).map (fun n => (n : Int))

/-- The JS `Number.parseInt(s, 10)`: skip leading whitespace, optional
sign, then the longest digit run; `none` models `NaN`. -/
def jsParseInt10 (s : List Char) : Option Int :=
  jsParseIntCore (s.dropWhile isWs)

/-- The error message thrown for an invalid port token. -/
def portErrMsg (tok : String) : String :=
  "Invalid port " ++ quoteCh ++ tok ++ quoteCh
    ++ ": must be a number between 1 and 65535"

/-- A port token passes when its parsed value is neither NaN nor
outside `[1, 65535]`. -/
def validPortTok (tok : List Char) : Bool :=
  match jsParseInt10 tok with
  | none => false
  | some n => decide (1 ≤ n) && decide (n ≤ 65535)

/-- The token loop of `validatePortList`: the first invalid token
throws. -/
def validatePortTokens : List (List Char) → Except String Unit
  | [] => .ok ()
  | t :: ts =>
    if validPortTok t then validatePortTokens ts
    else .error (portErrMsg (String.mk t))

/-- The port-list validator `validatePortList` of
src/utils/validation.ts: empty or whitespace-only input is accepted,
otherwise the comma-separated tokens are trimmed and checked. -/
def validatePortList (ports : String) : Except String Unit :=
  if (trimChars ports.toList).isEmpty then .ok ()
  else validatePortTokens ((splitChar ',' ports.toList).map trimChars)

/-! ## Effect model: actions and the external environment -/

/-- Observable external effects of the embedded operations, in issue
order.  Terminal progress-bar output of the bulk copier is elided as
pure display. -/
inductive Effect where
  | fileExistsQ (p : String)
  | worktreeListQ
  | showRefQ (r : String)
  | gitRemoteQ
  | fetchA
  | revParseQ (r : String)
  | repoRootQ
  | commonDirQ
  | gitDirQ
  | worktreeAdd (dir : String) (args : List String)
  | worktreeRemove (p : String) (force : Bool)
  | branchValidate (name : String)
  | promptA (msg : String)
  | lsFilesOthersQ (cwd : String)
  | statQ (p : String)
  | cpDirA (src dst : String)
  | mkdirA (p : String)
  | copyFileA (src dst : String)
  | readHookA
  | writeHookA (content : String)
  | chmodHookA
  | consoleLog (msg : String)
  | consoleErr (msg : String)
  | consoleWarn (msg : String)

deriving Repr, DecidableEq

/-- Fixed answers of the external tools (git, filesystem, prompts,
node path library) during one run. -/
structure Env where
  fsEntries : List String := []
  worktreeListOutput : String := ""
  refs : List String := []
  remotesOutput : String := ""
  fetchOk : Bool := true
  fetchErr : String := ""
  revParse : String → String := fun _ => ""
  repoRootPath : String := ""
  commonDir : String := ".git"
  gitDirPath : String := ".git"
  worktreeAddOk : Bool := true
  worktreeAddErr : String := ""
  untrackedOutput : String := ""
  lsFilesOk : Bool := true
  lsFilesErr : String := ""
  pathDirname : String → String := fun _ => ""
  pathBasename : String → String := fun _ => ""
  pathResolveOne : String → String := fun s => s
  pathResolveTwo : String → String → String := fun _ s => s
  pathResolveThree : String → String → String → String := fun _ _ s => s
  pathJoin : String → String → String := fun a b => a ++ "/" ++ b
  isDir : String → Bool := fun _ => false
  removeFail : String → Bool := fun _ => false
  removeErr : String → String := fun _ => ""
  confirmAnswer : Bool := true

/-- Options accepted by the worktree-creation entry points. -/
structure Opts where
  base : Option String := none
  dir : Option String := none
  yes : Bool := false

deriving Repr, DecidableEq

/-- Truth of `git show-ref --verify` for a full ref name. -/
def showRefB (e : Env) (r : String) : Bool := e.refs.contains r

/-! ## Git helper operations -/

/-- The path resolver `resolveWorktreePath` of
src/utils/git/resolveWorktreePath.ts: an existing filesystem entry wins,
otherwise the first worktree record whose branch equals the token. -/
def resolveWorktreePath (e : Env) (target : String) :
    Option String × List Effect :=
  if e.fsEntries.contains target then
    (some (e.pathResolveOne target), [Effect.fileExistsQ target])
  else
    (((parseWorktreeOutput e.worktreeListOutput).find?
        (fun i => i.branch == some target)).map (fun i => i.path),
      [Effect.fileExistsQ target, Effect.worktreeListQ])

/-- The `branchExists` helper: `show-ref` on `refs/heads/<name>`. -/
def branchExistsE (e : Env) (b : String) : Bool × List Effect :=
  (showRefB e ("refs/heads/" ++ b), [Effect.showRefQ ("refs/heads/" ++ b)])

/-- Error of `detectDefaultBranch` when neither candidate exists. -/
def detectFailMsg : String :=
  "Could not detect default branch. Neither " ++ quoteCh ++ "main" ++ quoteCh
    ++ " nor " ++ quoteCh ++ "master" ++ quoteCh
    ++ " exists locally or on origin. Please specify a base branch with --base."

/-- The default-branch detector of
src/utils/git/detectDefaultBranch.ts: local `main`, remote `main`,
local `master`, remote `master`, in that order. -/
def detectDefaultBranch (e : Env) : Except String String × List Effect :=
  if showRefB e "refs/heads/main" then
    (.ok "main", [Effect.showRefQ "refs/heads/main"])
  else if showRefB e "refs/remotes/origin/main" then
    (.ok "main",
      [Effect.showRefQ "refs/heads/main", Effect.showRefQ "refs/remotes/origin/main"])
  else if showRefB e "refs/heads/master" then
    (.ok "master",
      [Effect.showRefQ "refs/heads/main", Effect.showRefQ "refs/remotes/origin/main",
        Effect.showRefQ "refs/heads/master"])
  else if showRefB e "refs/remotes/origin/master" then
    (.ok "master",
      [Effect.showRefQ "refs/heads/main", Effect.showRefQ "refs/remotes/origin/main",
        Effect.showRefQ "refs/heads/master", Effect.showRefQ "refs/remotes/origin/master"])
  else
    (.error detectFailMsg,
      [Effect.showRefQ "refs/heads/main", Effect.showRefQ "refs/remotes/origin/main",
        Effect.showRefQ "refs/heads/master", Effect.showRefQ "refs/remotes/origin/master"])

/-- The no-origin error of `ensureBaseUpToDate`. -/
def noOriginMsg : String :=
  "No " ++ quoteCh ++ "origin" ++ quoteCh
    ++ " remote found. Please add a remote named " ++ quoteCh ++ "origin" ++ quoteCh
    ++ " or manually fetch and create the base branch."

/-- The wrapped fetch-failure error of `ensureBaseUpToDate`. -/
def fetchFailMsg (m : String) : String := "Failed to fetch from origin: " ++ m

/-- The missing-remote-branch error of `ensureBaseUpToDate`. -/
def baseMissingMsg (b : String) : String :=
  "Branch " ++ quoteCh ++ b ++ quoteCh
    ++ " does not exist on origin. Please specify a valid base branch."

/-- Base synchronisation `ensureBaseUpToDate` of
src/utils/git/ensureBaseUpToDate.ts: requires `origin` in the output of
`git remote` (a substring test in the source), fetches, requires the
remote-tracking ref, then resolves `origin/<base>` to a commit id. -/
def ensureBaseUpToDate (e : Env) (base : String) :
    Except String String × List Effect :=
  if hasSub ("origin").toList e.remotesOutput.toList then
    if e.fetchOk then
      if showRefB e ("refs/remotes/origin/" ++ base) then
        (.ok (e.revParse ("origin/" ++ base)),
          [Effect.gitRemoteQ, Effect.fetchA,
            Effect.showRefQ ("refs/remotes/origin/" ++ base),
            Effect.revParseQ ("origin/" ++ base)])
      else
        (.error (baseMissingMsg base),
          [Effect.gitRemoteQ, Effect.fetchA,
            Effect.showRefQ ("refs/remotes/origin/" ++ base)])
    else
      (.error (fetchFailMsg e.fetchErr), [Effect.gitRemoteQ, Effect.fetchA])
  else
    (.error noOriginMsg, [Effect.gitRemoteQ])

/-- The `repoName` helper: basename of the repository root, recovered
through the common git directory when invoked from a worktree. -/
def repoNameE (e : Env) : String × List Effect :=
  if e.commonDir == ".git" then
    (e.pathBasename e.repoRootPath, [Effect.commonDirQ, Effect.repoRootQ])
  else
    (e.pathBasename (e.pathDirname e.commonDir), [Effect.commonDirQ])

/-- The `defaultDir` helper: sibling directory
`<parent-of-root>/<repo>-<branch>`. -/
def defaultDir (e : Env) (branch : String) : String × List Effect :=
  let rn := repoNameE e
  (e.pathResolveTwo (e.pathDirname e.repoRootPath) (rn.fst ++ "-" ++ branch),
    Effect.repoRootQ :: rn.snd)

/-! ## Untracked-file propagation -/

/-- Untracked file names from `git ls-files --others` output: split on
newlines, trim, drop empties. -/
def untrackedFilesOf (out : String) : List String :=
  ((splitNl out.toList).map (fun l => String.mk (trimChars l))).filter
    (fun f => f != "")

/-- Append a file under its top-level directory key, first-occurrence
key order (the JS Map insertion order). -/
def insertGroup : List (String × List String) → String → String →
    List (String × List String)
  | [], k, f => [(k, [f])]
  | (k2, fs) :: rest, k, f =>
    if k2 == k then (k2, fs ++ [f]) :: rest
    else (k2, fs) :: insertGroup rest k f

/-- One step of the grouping loop of `groupFilesByDirectory`: files
with a directory component are grouped, root-level files are kept
apart. -/
def groupStep (acc : List (String × List String) × List String)
    (f : String) : List (String × List String) × List String :=
  match splitChar '/' f.toList with
  | p :: _ :: _ => (insertGroup acc.fst (String.mk p) f, acc.snd)
  | _ => (acc.fst, acc.snd ++ [f])

/-- Grouping step `groupFilesByDirectory` of src/utils/git/copyUntrackedFiles.ts:
directories holding at least ten untracked files are copied wholesale,
the rest of the files individually. -/
def groupFilesByDirectory (files : List String) :
    List String × List String :=
  let r := files.foldl groupStep ([], [])
  ((r.fst.filter (fun kv => 10 ≤ kv.snd.length)).map (fun kv => kv.fst),
    r.snd ++ ((r.fst.filter (fun kv => kv.snd.length < 10)).map
      (fun kv => kv.snd)).flatten)

/-- Final console message of the bulk copier. -/
def bulkCopyMsg (total dirCount : Nat) : String :=
  "Copied " ++ toString total ++ " untracked file(s) from base branch"
    ++ (if 0 < dirCount then
          " (" ++ toString dirCount ++ " "
            ++ (if 1 < dirCount then "directories" else "directory")
            ++ " bulk " ++ (if 1 < dirCount then "copies" else "copy") ++ ")"
        else "")

/-- Effect trace of the bulk `copyUntrackedFiles` of
src/utils/git/copyUntrackedFiles.ts.  Per-item copy failures are
swallowed, a listing failure only warns; the step never fails the
caller. -/
def copyUntrackedFiles (e : Env) (sourceDir destDir : String) : List Effect :=
  if e.lsFilesOk = false then
    [Effect.lsFilesOthersQ sourceDir,
      Effect.consoleWarn ("Warning: Failed to copy some untracked files: "
        ++ e.lsFilesErr)]
  else
    let files := untrackedFilesOf e.untrackedOutput
    if files.isEmpty then [Effect.lsFilesOthersQ sourceDir]
    else
      let g := groupFilesByDirectory files
      Effect.lsFilesOthersQ sourceDir
        :: ((g.fst.map (fun d =>
              Effect.statQ (e.pathJoin sourceDir d)
                :: (if e.isDir (e.pathJoin sourceDir d) then
                      [Effect.cpDirA (e.pathJoin sourceDir d) (e.pathJoin destDir d)]
                    else []))).flatten
          ++ (g.snd.map (fun f =>
              [Effect.mkdirA (e.pathDirname (e.pathJoin destDir f)),
                Effect.copyFileA (e.pathJoin sourceDir f) (e.pathJoin destDir f)])).flatten
          ++ [Effect.consoleLog (bulkCopyMsg files.length g.fst.length)])

/-- Effect trace of the local file-by-file copy helper inside
src/utils/git/createWorktree.ts. -/
def copyUntrackedFilesLocal (e : Env) (sourceDir destDir : String) :
    List Effect :=
  if e.lsFilesOk = false then
    [Effect.lsFilesOthersQ sourceDir,
      Effect.consoleWarn ("Warning: Failed to copy some untracked files: "
        ++ e.lsFilesErr)]
  else
    let files := untrackedFilesOf e.untrackedOutput
    if files.isEmpty then [Effect.lsFilesOthersQ sourceDir]
    else
      Effect.lsFilesOthersQ sourceDir
        :: ((files.map (fun f =>
              [Effect.mkdirA (e.pathDirname (e.pathJoin destDir f)),
                Effect.copyFileA (e.pathJoin sourceDir f) (e.pathJoin destDir f)])).flatten
          ++ [Effect.consoleLog ("Copied " ++ toString files.length
              ++ " untracked file(s) from base branch")])

/-! ## Worktree creation protocol -/

/-- The directory-collision error shared by both creation paths. -/
def dirExistsMsg (dir : String) : String :=
  "Directory already exists: " ++ dir
    ++ ". Choose a different directory with --dir"

/-- The branch-collision error of `createWorktree`. -/
def branchExistsErrMsg (b : String) : String :=
  "Branch " ++ quoteCh ++ b ++ quoteCh ++ " already exists."

/-- Existing-branch materialisation `createWorktreeForExistingBranch` of
src/utils/git/createWorktreeForExistingBranch.ts: validate the name,
capture the repository root, compute the destination, guard on an
existing directory, add the worktree without `-b`, then best-effort
copy. -/
def createWorktreeForExistingBranch (e : Env) (branch : String)
    (opts : Opts) : Except String String × List Effect :=
  match validateBranchName branch with
  | .error m => (.error m, [Effect.branchValidate branch])
  | .ok _ =>
    let t0 := [Effect.branchValidate branch, Effect.repoRootQ]
    let baseDir := e.repoRootPath
    let dirR : String × List Effect :=
      match opts.dir with
      | some d => (d, [])
      | none => defaultDir e branch
    let dir := dirR.fst
    let t1 := t0 ++ dirR.snd ++ [Effect.fileExistsQ dir]
    if e.fsEntries.contains dir then
      (.error (dirExistsMsg dir), t1)
    else
      let t2 := t1 ++ [Effect.worktreeAdd dir [branch]]
      if e.worktreeAddOk = false then (.error e.worktreeAddErr, t2)
      else
        (.ok dir,
          t2 ++ Effect.consoleLog ("Created worktree at " ++ dir)
            :: copyUntrackedFiles e baseDir dir)

/-- New-branch creation `createWorktree` of
src/utils/git/createWorktree.ts: validate, detect the base when not
given, synchronise it, capture root, compute destination, guard on
branch and directory collisions, add the worktree with `-b` rooted at
the synchronised reference, then best-effort copy. -/
def createWorktree (e : Env) (branch : String) (opts : Opts) :
    Except String String × List Effect :=
  match validateBranchName branch with
  | .error m => (.error m, [Effect.branchValidate branch])
  | .ok _ =>
    let baseR : Except String String × List Effect :=
      match opts.base with
      | some b => (.ok b, [])
      | none => detectDefaultBranch e
    match baseR.fst with
    | .error m => (.error m, Effect.branchValidate branch :: baseR.snd)
    | .ok base =>
      let ensR := ensureBaseUpToDate e base
      match ensR.fst with
      | .error m =>
        (.error m, Effect.branchValidate branch :: baseR.snd ++ ensR.snd)
      | .ok baseRef =>
        let t0 := Effect.branchValidate branch
          :: baseR.snd ++ ensR.snd ++ [Effect.repoRootQ]
        let baseDir := e.repoRootPath
        let dirR : String × List Effect :=
          match opts.dir with
          | some d => (d, [])
          | none => defaultDir e branch
        let dir := dirR.fst
        let t1 := t0 ++ dirR.snd ++ [Effect.showRefQ ("refs/heads/" ++ branch)]
        if showRefB e ("refs/heads/" ++ branch) then
          (.error (branchExistsErrMsg branch), t1)
        else
          let t2 := t1 ++ [Effect.fileExistsQ dir]
          if e.fsEntries.contains dir then
            (.error (dirExistsMsg dir), t2)
          else
            let t3 := t2 ++ [Effect.worktreeAdd dir ["-b", branch, baseRef]]
            if e.worktreeAddOk = false then (.error e.worktreeAddErr, t3)
            else
              (.ok dir,
                t3 ++ Effect.consoleLog ("Created worktree at " ++ dir)
                  :: copyUntrackedFilesLocal e baseDir dir)

/-- The `branch` entry point of src/branch.ts: resolver hit returns
the path at once; otherwise an existing branch is materialised, or a
new branch is created. -/
def branch (e : Env) (target : String) (opts : Opts) :
    Except String String × List Effect :=
  let r := resolveWorktreePath e target
  match r.fst with
  | some p => (.ok p, r.snd)
  | none =>
    let be := branchExistsE e target
    if be.fst then
      let c := createWorktreeForExistingBranch e target opts
      (c.fst, r.snd ++ be.snd
        ++ Effect.consoleLog
            ("Worktree not found. Creating new worktree for existing branch: "
              ++ target) :: c.snd)
    else
      let c := createWorktree e target opts
      (c.fst, r.snd ++ be.snd
        ++ Effect.consoleLog
            ("Worktree not found. Creating new worktree for branch: " ++ target)
          :: c.snd)

/-! ## Orphan detection and pruning -/

/-- An orphaned worktree: path plus the branch that no longer exists. -/
structure OrphanItem where
  path : String
  branch : String

deriving Repr, DecidableEq

/-- The record loop of `findOrphanedWorktrees`: records without a
truthy branch are skipped, the rest are checked with `branchExists`. -/
def orphanLoop (e : Env) : List WorktreeItem → List OrphanItem × List Effect
  | [] => ([], [])
  | wt :: rest =>
    match wt.branch with
    | none => orphanLoop e rest
    | some b =>
      if b == "" then orphanLoop e rest
      else
        let r := orphanLoop e rest
        if showRefB e ("refs/heads/" ++ b) then
          (r.fst, Effect.showRefQ ("refs/heads/" ++ b) :: r.snd)
        else
          (⟨wt.path, b⟩ :: r.fst, Effect.showRefQ ("refs/heads/" ++ b) :: r.snd)

/-- Orphan scan `findOrphanedWorktrees` of src/utils/git/findOrphanedWorktrees.ts. -/
def findOrphanedWorktrees (e : Env) : List OrphanItem × List Effect :=
  let r := orphanLoop e (parseWorktreeOutput e.worktreeListOutput)
  (r.fst, Effect.worktreeListQ :: r.snd)

/-- Options of the prune command. -/
structure PruneOpts where
  yes : Bool := false

deriving Repr, DecidableEq

/-- The removal loop of `prune`: every orphan gets a forced removal
call; a failure is reported and the loop continues. -/
def pruneRemovals (e : Env) (os : List OrphanItem) : List Effect :=
  (os.map (fun wt =>
    Effect.worktreeRemove wt.path true
      :: (if e.removeFail wt.path then
            [Effect.consoleErr ("Failed to remove " ++ wt.path ++ ": "
              ++ e.removeErr wt.path)]
          else [Effect.consoleLog ("Removed: " ++ wt.path)]))).flatten

/-- Pruning command `prune` of src/prune.ts: report and stop on zero orphans, list
them, confirm unless suppressed, remove each, return the detected
count. -/
def prune (e : Env) (opts : PruneOpts) : Except String Nat × List Effect :=
  let f := findOrphanedWorktrees e
  if f.fst.isEmpty then
    (.ok 0, f.snd ++ [Effect.consoleLog "No orphaned worktrees found."])
  else
    let t0 := f.snd
      ++ Effect.consoleLog ("Found " ++ toString f.fst.length
          ++ " orphaned worktree(s):")
        :: f.fst.map (fun wt =>
          Effect.consoleLog ("  " ++ wt.path ++ " (branch: " ++ wt.branch ++ ")"))
    let pr : Bool × List Effect :=
      if opts.yes then (true, [])
      else (e.confirmAnswer,
        [Effect.promptA ("Remove " ++ toString f.fst.length
          ++ " orphaned worktree(s)?")])
    if pr.fst then
      (.ok f.fst.length, t0 ++ pr.snd ++ pruneRemovals e f.fst)
    else
      (.error "Aborted.", t0 ++ pr.snd)

/-! ## Hook installation -/

/-- Outcome of one `installPruneHook` run: the returned flag, the hook
file content afterwards, and the effect trace. -/
structure HookResult where
  installed : Bool
  state : Option String
  trace : List Effect

deriving Repr, DecidableEq

/-- The hook script written by `installPruneHook`. -/
def hookContent : String :=
  "#!/bin/sh\n# Auto-installed by twig: prune orphaned worktrees\ntwig prune --yes 2>/dev/null || true\n"

/-- The idempotency marker searched for in an existing hook. -/
def pruneMarker : String := "twig prune"

/-- Effects of `installPruneHook` up to and including the hook-file
read: root and git-dir queries, hooks-directory creation, read. -/
def hookPre (e : Env) : List Effect :=
  [Effect.repoRootQ, Effect.gitDirQ,
    Effect.mkdirA (e.pathResolveThree e.repoRootPath e.gitDirPath "hooks"),
    Effect.readHookA]

/-- Hook installer `installPruneHook` of src/utils/git/installPruneHook.ts over the
current hook-file content (`none` means the file does not exist): a
file containing the marker is left alone, an existing file gets the
script appended, a missing file is created and made executable. -/
def installPruneHook (e : Env) : Option String → HookResult
  | some c =>
    if hasSub pruneMarker.toList c.toList then
      ⟨false, some c, hookPre e⟩
    else
      ⟨true, some (c ++ "\n" ++ hookContent),
        hookPre e ++ [Effect.writeHookA (c ++ "\n" ++ hookContent),
          Effect.consoleLog
            "Updated existing post-checkout hook to include twig prune."]⟩
  | none =>
    ⟨true, some hookContent,
      hookPre e ++ [Effect.writeHookA hookContent, Effect.chmodHookA,
        Effect.consoleLog
          "Installed post-checkout hook to automatically prune orphaned worktrees."]⟩

/-! ## Effect classifiers -/

/-- Worktree-creation call. -/
def isWorktreeAddE : Effect → Bool
  | .worktreeAdd _ _ => true
  | _ => false

/-- Interactive confirmation. -/
def isPromptE : Effect → Bool
  | .promptA _ => true
  | _ => false

/-- Branch-name validation. -/
def isValidateE : Effect → Bool
  | .branchValidate _ => true
  | _ => false

/-- Base-synchronisation machinery: remote listing, fetch, rev-parse. -/
def isBaseSyncE : Effect → Bool
  | .gitRemoteQ => true
  | .fetchA => true
  | .revParseQ _ => true
  | _ => false

/-- Any ref-existence query (used by base detection and collision
guards). -/
def isShowRefE : Effect → Bool
  | .showRefQ _ => true
  | _ => false

/-- Hook-file write. -/
def isWriteHookE : Effect → Bool
  | .writeHookA _ => true
  | _ => false

/-- Forced or plain worktree removal. -/
def isRemoveE : Effect → Bool
  | .worktreeRemove _ _ => true
  | _ => false

/-- Every worktree-add in the trace attaches the given existing branch
without a `-b` flag. -/
def worktreeAddArgsOk (target : String) : Effect → Bool
  | .worktreeAdd _ args => args == [target]
  | _ => true

/-- Environment of the three-way witness: the token names an existing
filesystem entry. -/
def envC1 : Env := { fsEntries := ["demo"], pathResolveOne := fun s => "/abs/" ++ s }

/-! ## Base synchronisation (C4, C5) -/

/-- Environment of the C4 counterexample: the only configured remote is
named `my-origin`, and the fetch then fails. -/
def envC4 : Env := { remotesOutput := "my-origin", fetchOk := false, fetchErr := "network down" }

/-- Environment of the C5 witness: remote `origin` configured, fetch
succeeds, the remote-tracking ref exists and resolves to `abc123`. -/
def envC5 : Env := { remotesOutput := "origin", refs := ["refs/remotes/origin/main"], revParse := fun _ => "abc123" }

/-! ## Orphan detection (C6) -/

/-- Per-record orphan decision: no branch or an empty branch is never
an orphan; otherwise the record is orphaned when its branch fails the
ref query. -/
def orphanCheck (e : Env) (wt : WorktreeItem) : Option OrphanItem :=
  match wt.branch with
  | none => none
  | some b =>
    if b == "" then none
    else if showRefB e ("refs/heads/" ++ b) then none
    else some ⟨wt.path, b⟩

/-- Environment of the orphan witness: one worktree on a deleted
branch, one detached worktree. -/
def envC6 : Env := { worktreeListOutput := "worktree /r\nbranch refs/heads/gone\n\nworktree /x\nHEAD abc" }

/-- Environment of the pruning witnesses: two orphaned worktrees and
every removal failing. -/
def envC8 : Env := { worktreeListOutput := "worktree /a\nbranch refs/heads/g1\n\nworktree /b\nbranch refs/heads/g2", removeFail := fun _ => true, removeErr := fun _ => "locked" }

/-- Hook-file text of a state: the content when the file exists,
nothing otherwise. -/
def hookText : Option String → List Char
  | some c => c.toList
  | none => []

/-- Number of marker occurrences in the hook-file state. -/
def hookCount (st : Option String) : Nat :=
  countSub pruneMarker.toList (hookText st)

/-! ## Splitting and joining lemmas -/

theorem splitChar_no_sep (sep : Char) (l : List Char) (h : sep ∉ l) :
    splitChar sep l = [l] := by
  induction l with
  | nil => rfl
  | cons c cs ih =>
    have hc : ¬ (c = sep) := fun e => h (e ▸ List.mem_cons_self c cs)
    have hcs : sep ∉ cs := fun m => h (List.mem_cons_of_mem _ m)
    simp [splitChar, hc, ih hcs]

theorem splitChar_append_sep (sep : Char) (l t : List Char) (h : sep ∉ l) :
    splitChar sep (l ++ sep :: t) = l :: splitChar sep t := by
  induction l with
  | nil => simp [splitChar]
  | cons c cs ih =>
    have hc : ¬ (c = sep) := fun e => h (e ▸ List.mem_cons_self c cs)
    have hcs : sep ∉ cs := fun m => h (List.mem_cons_of_mem _ m)
    simp [splitChar, hc, ih hcs]

theorem splitChar_joinChar (sep : Char) (ls : List (List Char))
    (h : ∀ l ∈ ls, sep ∉ l) (hne : ls ≠ []) :
    splitChar sep (joinChar sep ls) = ls := by
  induction ls with
  | nil => exact absurd rfl hne
  | cons l ls ih =>
    cases ls with
    | nil => exact splitChar_no_sep sep l (h l (List.mem_cons_self _ _))
    | cons l2 ls2 =>
      have hstep : joinChar sep (l :: l2 :: ls2) = l ++ sep :: joinChar sep (l2 :: ls2) := rfl
      rw [hstep, splitChar_append_sep sep l _ (h l (List.mem_cons_self _ _)),
        ih (fun x hx => h x (List.mem_cons_of_mem _ hx)) (by simp)]

/-! ## Parsing-loop lemmas -/

theorem trim_head_not_ws (c : Char) (cs : List Char) (h : isWs c = false) :
    (trimChars (c :: cs)).isEmpty = false := by
  have h1 : (c :: cs).dropWhile isWs = c :: cs := by
    simp [List.dropWhile_cons, h]
  by_cases h2 : ((cs.reverse).dropWhile isWs).isEmpty
  · simp [trimChars, h1, List.dropWhile_append, h2, List.dropWhile_cons, h]
  · simp [trimChars, h1, List.dropWhile_append, h2]

theorem stepLine_good (cur : CurItem) (items : List WorktreeItem)
    (line : List Char) (h : goodLineB line = true) :
    stepLine (cur, items) line = (stepCur cur line, items) := by
  have hwt : (("worktree ").toList.isPrefixOf line) = false := by
    simp only [goodLineB, Bool.and_eq_true, Bool.not_eq_true'] at h
    exact h.2
  unfold stepCur stepLine
  simp only [hwt, Bool.false_eq_true, if_false]
  split
  · rfl
  · split
    · rfl
    · split
      · rfl
      · rfl

theorem foldl_stepLine_good (ls : List (List Char)) (cur : CurItem)
    (items : List WorktreeItem) (h : ∀ l ∈ ls, goodLineB l = true) :
    ls.foldl stepLine (cur, items) = (ls.foldl stepCur cur, items) := by
  induction ls generalizing cur with
  | nil => rfl
  | cons l ls ih =>
    rw [List.foldl_cons, List.foldl_cons,
      stepLine_good cur items l (h l (List.mem_cons_self _ _))]
    exact ih _ (fun x hx => h x (List.mem_cons_of_mem _ hx))

theorem stepCur_path (cur : CurItem) (line : List Char)
    (h : goodLineB line = true) : (stepCur cur line).path = cur.path := by
  have hwt : (("worktree ").toList.isPrefixOf line) = false := by
    simp only [goodLineB, Bool.and_eq_true, Bool.not_eq_true'] at h
    exact h.2
  unfold stepCur stepLine
  simp only [hwt, Bool.false_eq_true, if_false]
  split
  · rfl
  · split
    · rfl
    · split
      · rfl
      · rfl

theorem wt_header_cons (p : String) :
    ("worktree " ++ p).toList = 'w' :: ("orktree ").toList ++ p.toList := by
  rw [show ("worktree " ++ p).toList = ("worktree ").toList ++ p.toList from
    String.data_append _ _]
  rfl

theorem stepLine_header (b : WtBlock) (cur : CurItem)
    (items : List WorktreeItem) :
    stepLine (cur, items) (("worktree " ++ b.path).toList)
      = (⟨some (String.mk (trimChars b.path.toList)), none, none⟩,
          flushCur cur items) := by
  have hline : ("worktree " ++ b.path).toList
      = ("worktree ").toList ++ b.path.toList := String.data_append _ _
  have hne : (trimChars (("worktree " ++ b.path).toList)).isEmpty = false := by
    rw [wt_header_cons]
    exact trim_head_not_ws 'w' _ (by decide)
  have hpref : (("worktree ").toList.isPrefixOf
      (("worktree " ++ b.path).toList)) = true := by
    rw [hline, List.isPrefixOf_iff_prefix]
    exact List.prefix_append _ _
  have hdrop : (("worktree " ++ b.path).toList).drop 9 = b.path.toList := by
    rw [hline, show (9 : Nat) = ("worktree ").toList.length from rfl]
    exact List.drop_left _ _
  unfold stepLine
  simp only [hne, hpref, hdrop, Bool.false_eq_true, if_false, if_true]

theorem blockCur_path (b : WtBlock) (h : goodBlockB b = true) :
    (blockCur b).path = some (String.mk (trimChars b.path.toList)) := by
  have hex : ∀ s ∈ b.extra, goodLineB s.toList = true := by
    simp only [goodBlockB, Bool.and_eq_true, List.all_eq_true] at h
    exact h.2
  suffices H : ∀ (xs : List String) (cur : CurItem),
      (∀ s ∈ xs, goodLineB s.toList = true) →
      (xs.foldl (fun cur s => stepCur cur s.toList) cur).path = cur.path by
    exact H b.extra _ hex
  intro xs
  induction xs with
  | nil => intro cur _; rfl
  | cons x xs ih =>
    intro cur h
    rw [List.foldl_cons, ih _ (fun s hs => h s (List.mem_cons_of_mem _ hs)),
      stepCur_path _ _ (h x (List.mem_cons_self _ _))]

theorem mk_bne_empty (l : List Char) (h : l ≠ []) :
    (String.mk l != "") = true := by
  rw [bne_iff_ne]
  intro e
  exact h (congrArg String.data e)

theorem flushCur_blockCur (b : WtBlock) (h : goodBlockB b = true)
    (items : List WorktreeItem) :
    flushCur (blockCur b) items = items ++ [blockRecord b] := by
  have hp := blockCur_path b h
  have htrim : (trimChars b.path.toList) ≠ [] := by
    simp only [goodBlockB, Bool.and_eq_true, Bool.not_eq_true'] at h
    intro e
    rw [e] at h
    simp at h
  simp [flushCur, hp, blockRecord]
  intro e
  exact htrim (congrArg String.data e)

theorem foldl_blockLines (b : WtBlock) (h : goodBlockB b = true)
    (cur : CurItem) (items : List WorktreeItem) :
    (blockLines b).foldl stepLine (cur, items) = (blockCur b, flushCur cur items) := by
  have hex : ∀ s ∈ b.extra, goodLineB s.toList = true := by
    simp only [goodBlockB, Bool.and_eq_true, List.all_eq_true] at h
    exact h.2
  have hex2 : ∀ l ∈ b.extra.map String.toList, goodLineB l = true := by
    intro l hl
    rcases List.mem_map.mp hl with ⟨s, hs, rfl⟩
    exact hex s hs
  unfold blockLines
  rw [List.foldl_cons, stepLine_header b cur items,
    foldl_stepLine_good _ _ _ hex2, List.foldl_map]
  rfl

theorem runLines_blocks : ∀ (bs : List WtBlock), bs.all goodBlockB = true →
    ∀ (cur : CurItem) (items : List WorktreeItem),
    runLines ((bs.map blockLines).flatten) cur items
      = flushCur cur items ++ bs.map blockRecord := by
  intro bs
  induction bs with
  | nil => intro _ cur items; simp [runLines]
  | cons b bs ih =>
    intro h cur items
    have hb : goodBlockB b = true := by
      simp only [List.all_cons, Bool.and_eq_true] at h
      exact h.1
    have hbs : bs.all goodBlockB = true := by
      simp only [List.all_cons, Bool.and_eq_true] at h
      exact h.2
    show runLines (blockLines b ++ (bs.map blockLines).flatten) cur items = _
    unfold runLines
    rw [List.foldl_append, foldl_blockLines b hb]
    have := ih hbs (blockCur b) (flushCur cur items)
    unfold runLines at this
    rw [this, flushCur_blockCur b hb]
    simp

theorem blockLines_no_nl (b : WtBlock) (h : goodBlockB b = true) :
    ∀ l ∈ blockLines b, '\n' ∉ l := by
  simp only [goodBlockB, Bool.and_eq_true, List.all_eq_true] at h
  intro l hl
  rcases List.mem_cons.mp hl with he | hm
  · subst he
    rw [wt_header_cons]
    intro hmem
    rcases List.mem_cons.mp hmem with habs | hmem2
    · exact absurd habs (by decide)
    rcases List.mem_append.mp hmem2 with h1 | h2
    · exact absurd h1 (by decide)
    · have := h.1.1
      simp at this
      exact this h2
  · rcases List.mem_map.mp hm with ⟨s, hs, rfl⟩
    have := h.2 s hs
    simp only [goodLineB, Bool.and_eq_true, Bool.not_eq_true'] at this
    have h3 := this.1
    simp at h3
    exact h3

theorem countP_blockLines (bs : List WtBlock) (h : bs.all goodBlockB = true) :
    ((bs.map blockLines).flatten).countP
      (fun l => ("worktree ").toList.isPrefixOf l) = bs.length := by
  induction bs with
  | nil => rfl
  | cons b bs ih =>
    simp only [List.all_cons, Bool.and_eq_true] at h
    have hhead : (("worktree ").toList.isPrefixOf
        (("worktree " ++ b.path).toList)) = true := by
      rw [show ("worktree " ++ b.path).toList
          = ("worktree ").toList ++ b.path.toList from String.data_append _ _,
        List.isPrefixOf_iff_prefix]
      exact List.prefix_append _ _
    have hextra : (b.extra.map String.toList).countP
        (fun l => ("worktree ").toList.isPrefixOf l) = 0 := by
      rw [List.countP_eq_zero]
      intro l hl
      rcases List.mem_map.mp hl with ⟨s, hs, rfl⟩
      have := h.1
      simp only [goodBlockB, Bool.and_eq_true, List.all_eq_true] at this
      have hg := this.2 s hs
      simp only [goodLineB, Bool.and_eq_true, Bool.not_eq_true'] at hg
      simp only [hg.2]
      exact Bool.false_ne_true
    show (blockLines b ++ (bs.map blockLines).flatten).countP _ = bs.length + 1
    rw [List.countP_append, ih h.2]
    unfold blockLines
    rw [List.countP_cons, hextra]
    simp [hhead]
    omega

/-- C2: parsing a valid block-structured listing yields exactly one
record per `worktree ` line, in input-block order, and the empty
input yields the empty sequence. -/
theorem parse_valid_listing_roundtrip (bs : List WtBlock)
    (h : bs.all goodBlockB = true) :
    parseWorktreeOutput (renderListing bs) = bs.map blockRecord
    ∧ (parseWorktreeOutput (renderListing bs)).length = bs.length
    ∧ ((bs.map blockLines).flatten).countP
        (fun l => ("worktree ").toList.isPrefixOf l) = bs.length
    ∧ parseWorktreeOutput "" = [] := by
  have hmain : parseWorktreeOutput (renderListing bs) = bs.map blockRecord := by
    cases bs with
    | nil => rfl
    | cons b bs2 =>
      have hlines : ∀ l ∈ ((b :: bs2).map blockLines).flatten, '\n' ∉ l := by
        intro l hl
        rcases List.mem_flatten.mp hl with ⟨ls, hls, hlm⟩
        rcases List.mem_map.mp hls with ⟨b2, hb2, rfl⟩
        exact blockLines_no_nl b2 (List.all_eq_true.mp h b2 hb2) l hlm
      have hne : ((b :: bs2).map blockLines).flatten ≠ [] := by
        simp [blockLines]
      have hsplit : splitNl ((renderListing (b :: bs2)).toList)
          = ((b :: bs2).map blockLines).flatten := by
        unfold renderListing splitNl
        exact splitChar_joinChar '\n' _ hlines hne
      unfold parseWorktreeOutput
      rw [hsplit]
      show runLines (((b :: bs2).map blockLines).flatten) initCur []
        = (b :: bs2).map blockRecord
      rw [runLines_blocks (b :: bs2) h initCur []]
      rfl
  refine ⟨hmain, ?_, countP_blockLines bs h, rfl⟩
  rw [hmain]
  simp

/-- Concrete instance of the round-trip theorem: a two-block listing
with a detached block parses to exactly its two records. -/
theorem parse_valid_listing_roundtrip_witness :
    parseWorktreeOutput
        (renderListing [⟨"/a", ["HEAD abc", "branch refs/heads/main"]⟩,
          ⟨"/b", ["HEAD def", "detached"]⟩])
      = [⟨"/a", some "main", some "abc"⟩, ⟨"/b", none, some "def"⟩] := by
  have h := parse_valid_listing_roundtrip
    [⟨"/a", ["HEAD abc", "branch refs/heads/main"]⟩,
      ⟨"/b", ["HEAD def", "detached"]⟩] (by decide)
  rw [h.1]
  decide

/-! ## The branch line and refs/heads/ stripping -/

theorem toList_append (s t : String) : (s ++ t).toList = s.toList ++ t.toList :=
  String.data_append s t

theorem isPrefixOf_cons_ne (a b : Char) (as bs : List Char)
    (h : (a == b) = false) : ((a :: as).isPrefixOf (b :: bs)) = false := by
  simp only [List.isPrefixOf, h, Bool.false_and]

theorem trim_refs_line (X : String)
    (h2 : X.toList.reverse.dropWhile isWs = X.toList.reverse) :
    trimChars (("refs/heads/").toList ++ X.toList)
      = ("refs/heads/").toList ++ X.toList := by
  have hlead : (("refs/heads/").toList ++ X.toList).dropWhile isWs
      = ("refs/heads/").toList ++ X.toList := by
    show (('r' :: ("efs/heads/").toList) ++ X.toList).dropWhile isWs = _
    rw [List.cons_append, List.dropWhile_cons]
    simp [isWs]
  unfold trimChars
  rw [hlead, List.reverse_append, List.dropWhile_append, h2]
  by_cases hx : X.toList = []
  · have hxe : X.toList.reverse.isEmpty = true := by
      simp
      exact hx
    simp only [hxe, if_true]
    rw [show (("refs/heads/").toList.reverse.dropWhile isWs)
        = ("refs/heads/").toList.reverse from by decide, List.reverse_reverse]
    rw [hx, List.append_nil]
  · have hxe : X.toList.reverse.isEmpty = false := by
      simp [List.isEmpty_iff]
      exact hx
    simp only [hxe, Bool.false_eq_true, if_false]
    rw [← List.reverse_append, List.reverse_reverse]

theorem mk_toList (s : String) : String.mk s.toList = s := rfl

theorem stepLine_branch_refs (cur : CurItem) (items : List WorktreeItem)
    (X : String) (h2 : X.toList.reverse.dropWhile isWs = X.toList.reverse) :
    stepLine (cur, items) (("branch refs/heads/").toList ++ X.toList)
      = ({ cur with branch := some X }, items) := by
  have hne : (trimChars (("branch refs/heads/").toList ++ X.toList)).isEmpty
      = false := by
    show (trimChars ('b' :: (("ranch refs/heads/").toList ++ X.toList))).isEmpty = false
    exact trim_head_not_ws 'b' _ (by decide)
  have hwt : (("worktree ").toList.isPrefixOf
      (("branch refs/heads/").toList ++ X.toList)) = false := by
    show (('w' :: ("orktree ").toList).isPrefixOf
      ('b' :: (("ranch refs/heads/").toList ++ X.toList))) = false
    exact isPrefixOf_cons_ne 'w' 'b' _ _ (by decide)
  have hbr : (("branch ").toList.isPrefixOf
      (("branch refs/heads/").toList ++ X.toList)) = true := by
    show (("branch ").toList.isPrefixOf
      (("branch ").toList ++ (("refs/heads/").toList ++ X.toList))) = true
    rw [List.isPrefixOf_iff_prefix]
    exact List.prefix_append _ _
  have hdrop : ((("branch refs/heads/").toList ++ X.toList)).drop 7
      = ("refs/heads/").toList ++ X.toList := rfl
  have hstrip : stripRefsHeads (("refs/heads/").toList ++ X.toList)
      = X.toList := by
    unfold stripRefsHeads
    rw [if_pos]
    · rfl
    · rw [List.isPrefixOf_iff_prefix]
      exact List.prefix_append _ _
  unfold stepLine
  simp only [hne, hwt, hbr, hdrop, trim_refs_line X h2, hstrip,
    Bool.false_eq_true, if_false, if_true, mk_toList]

/-- C3 amended: a `branch refs/heads/X` line stores branch name `X`
exactly, provided `X` spans no newline and has no trailing whitespace
(the parser trims each line's value before stripping the prefix). -/
theorem branch_line_stores_name (X : String)
    (h1 : '\n' ∉ X.toList)
    (h2 : X.toList.reverse.dropWhile isWs = X.toList.reverse) :
    parseWorktreeOutput ("worktree /p\nbranch refs/heads/" ++ X)
      = [⟨"/p", some X, none⟩] := by
  have hsplit : splitNl (("worktree /p\nbranch refs/heads/" ++ X).toList)
      = [("worktree /p").toList, ("branch refs/heads/").toList ++ X.toList] := by
    have hshape : ("worktree /p\nbranch refs/heads/" ++ X).toList
        = ("worktree /p").toList
          ++ '\n' :: (("branch refs/heads/").toList ++ X.toList) := by
      rw [toList_append]
      rfl
    rw [hshape]
    unfold splitNl
    rw [splitChar_append_sep '\n' _ _ (by decide)]
    rw [splitChar_no_sep '\n' _ ?_]
    intro hmem
    rcases List.mem_append.mp hmem with ha | hb
    · exact absurd ha (by decide)
    · exact h1 hb
  unfold parseWorktreeOutput
  rw [hsplit]
  unfold parseLines
  rw [List.foldl_cons,
    show stepLine (initCur, []) (("worktree /p").toList)
      = (⟨some "/p", none, none⟩, ([] : List WorktreeItem)) from by decide,
    List.foldl_cons, stepLine_branch_refs _ _ X h2]
  rfl

/-- Concrete instance: a slash-segmented branch name is stored
verbatim. -/
theorem branch_line_stores_name_witness :
    parseWorktreeOutput ("worktree /p\nbranch refs/heads/" ++ "feature/x")
      = [⟨"/p", some "feature/x", none⟩] :=
  branch_line_stores_name "feature/x" (by decide) (by decide)

/-- C3 counterexample: for `X = "x "` (trailing space, no newline) the
stored branch name is the trimmed `"x"`, not `X` itself. -/
theorem branch_line_trailing_space_cex :
    parseWorktreeOutput ("worktree /p\nbranch refs/heads/" ++ "x ")
      = [⟨"/p", some "x", none⟩]
    ∧ ("x" : String) ≠ ("x " : String) := by
  constructor
  · decide
  · decide

theorem copy_mem (e : Env) (s d : String) (a : Effect)
    (ha : a ∈ copyUntrackedFiles e s d) :
    (∃ x, a = .lsFilesOthersQ x) ∨ (∃ x, a = .consoleWarn x)
    ∨ (∃ x, a = .statQ x) ∨ (∃ x y, a = .cpDirA x y)
    ∨ (∃ x, a = .mkdirA x) ∨ (∃ x y, a = .copyFileA x y)
    ∨ (∃ x, a = .consoleLog x) := by
  unfold copyUntrackedFiles at ha
  split at ha
  · rcases List.mem_cons.mp ha with rfl | ha2
    · exact Or.inl ⟨_, rfl⟩
    · rcases List.mem_cons.mp ha2 with rfl | ha3
      · exact Or.inr (Or.inl ⟨_, rfl⟩)
      · exact absurd ha3 (List.not_mem_nil a)
  · dsimp only at ha
    split at ha
    · rcases List.mem_cons.mp ha with rfl | ha2
      · exact Or.inl ⟨_, rfl⟩
      · exact absurd ha2 (List.not_mem_nil a)
    · rcases List.mem_cons.mp ha with rfl | ha2
      · exact Or.inl ⟨_, rfl⟩
      rcases List.mem_append.mp ha2 with ha3 | ha4
      · rcases List.mem_append.mp ha3 with ha5 | ha6
        · rcases List.mem_flatten.mp ha5 with ⟨l, hl, hal⟩
          rcases List.mem_map.mp hl with ⟨dd, _, rfl⟩
          rcases List.mem_cons.mp hal with rfl | hal2
          · exact Or.inr (Or.inr (Or.inl ⟨_, rfl⟩))
          · split at hal2
            · rcases List.mem_cons.mp hal2 with rfl | hal3
              · exact Or.inr (Or.inr (Or.inr (Or.inl ⟨_, _, rfl⟩)))
              · exact absurd hal3 (List.not_mem_nil a)
            · exact absurd hal2 (List.not_mem_nil a)
        · rcases List.mem_flatten.mp ha6 with ⟨l, hl, hal⟩
          rcases List.mem_map.mp hl with ⟨f, _, rfl⟩
          rcases List.mem_cons.mp hal with rfl | hal2
          · exact Or.inr (Or.inr (Or.inr (Or.inr (Or.inl ⟨_, rfl⟩))))
          · rcases List.mem_cons.mp hal2 with rfl | hal3
            · exact Or.inr (Or.inr (Or.inr (Or.inr (Or.inr (Or.inl ⟨_, _, rfl⟩)))))
            · exact absurd hal3 (List.not_mem_nil a)
      · rcases List.mem_cons.mp ha4 with rfl | ha5
        · exact Or.inr (Or.inr (Or.inr (Or.inr (Or.inr (Or.inr ⟨_, rfl⟩)))))
        · exact absurd ha5 (List.not_mem_nil a)

theorem copyLocal_mem (e : Env) (s d : String) (a : Effect)
    (ha : a ∈ copyUntrackedFilesLocal e s d) :
    (∃ x, a = .lsFilesOthersQ x) ∨ (∃ x, a = .consoleWarn x)
    ∨ (∃ x, a = .mkdirA x) ∨ (∃ x y, a = .copyFileA x y)
    ∨ (∃ x, a = .consoleLog x) := by
  unfold copyUntrackedFilesLocal at ha
  split at ha
  · rcases List.mem_cons.mp ha with rfl | ha2
    · exact Or.inl ⟨_, rfl⟩
    · rcases List.mem_cons.mp ha2 with rfl | ha3
      · exact Or.inr (Or.inl ⟨_, rfl⟩)
      · exact absurd ha3 (List.not_mem_nil a)
  · dsimp only at ha
    split at ha
    · rcases List.mem_cons.mp ha with rfl | ha2
      · exact Or.inl ⟨_, rfl⟩
      · exact absurd ha2 (List.not_mem_nil a)
    · rcases List.mem_cons.mp ha with rfl | ha2
      · exact Or.inl ⟨_, rfl⟩
      rcases List.mem_append.mp ha2 with ha3 | ha4
      · rcases List.mem_flatten.mp ha3 with ⟨l, hl, hal⟩
        rcases List.mem_map.mp hl with ⟨f, _, rfl⟩
        rcases List.mem_cons.mp hal with rfl | hal2
        · exact Or.inr (Or.inr (Or.inl ⟨_, rfl⟩))
        · rcases List.mem_cons.mp hal2 with rfl | hal3
          · exact Or.inr (Or.inr (Or.inr (Or.inl ⟨_, _, rfl⟩)))
          · exact absurd hal3 (List.not_mem_nil a)
      · rcases List.mem_cons.mp ha4 with rfl | ha5
        · exact Or.inr (Or.inr (Or.inr (Or.inr ⟨_, rfl⟩)))
        · exact absurd ha5 (List.not_mem_nil a)

theorem cwfeb_all (e : Env) (b : String) (o : Opts) (p : Effect → Bool)
    (h1 : ∀ s, p (.branchValidate s) = true)
    (h2 : p .repoRootQ = true)
    (h3 : p .commonDirQ = true)
    (h4 : ∀ s, p (.fileExistsQ s) = true)
    (h5 : ∀ d, p (.worktreeAdd d [b]) = true)
    (h6 : ∀ s, p (.consoleLog s) = true)
    (h7 : ∀ s d, (copyUntrackedFiles e s d).all p = true) :
    (createWorktreeForExistingBranch e b o).snd.all p = true := by
  unfold createWorktreeForExistingBranch
  have hdir : ∀ (dirR : String × List Effect),
      dirR.snd.all p = true →
      ((([Effect.branchValidate b, Effect.repoRootQ] ++ dirR.snd
          ++ [Effect.fileExistsQ dirR.fst])).all p) = true := by
    intro dirR hd
    simp [List.all_append, h1, h2, h4, hd]
  have hdirtrace : ∀ (dirR : String × List Effect),
      dirR = (match o.dir with
        | some d => (d, ([] : List Effect))
        | none => defaultDir e b) → dirR.snd.all p = true := by
    intro dirR hd
    cases ho : o.dir with
    | some d => rw [ho] at hd; simp [hd]
    | none =>
      rw [ho] at hd
      subst hd
      unfold defaultDir repoNameE
      by_cases hc : e.commonDir == ".git" <;>
        simp [hc, List.all_cons, h2, h3]
  cases validateBranchName b with
  | error m => simp [h1]
  | ok _ =>
    dsimp only
    have hall := hdirtrace _ rfl
    split
    · simp [List.all_append, h1, h2, h4, hall]
    · split
      · simp [List.all_append, List.all_cons, h1, h2, h4, h5, hall]
      · simp [List.all_append, List.all_cons, h1, h2, h4, h5, h6, hall, h7]

theorem copy_no_base (e : Env) (s d : String) :
    (copyUntrackedFiles e s d).all
      (fun a => !(isBaseSyncE a || isShowRefE a)) = true := by
  rw [List.all_eq_true]
  intro a ha
  rcases copy_mem e s d a ha with ⟨x, rfl⟩ | ⟨x, rfl⟩ | ⟨x, rfl⟩
    | ⟨x, y, rfl⟩ | ⟨x, rfl⟩ | ⟨x, y, rfl⟩ | ⟨x, rfl⟩ <;> rfl

theorem copy_add_ok (t : String) (e : Env) (s d : String) :
    (copyUntrackedFiles e s d).all (worktreeAddArgsOk t) = true := by
  rw [List.all_eq_true]
  intro a ha
  rcases copy_mem e s d a ha with ⟨x, rfl⟩ | ⟨x, rfl⟩ | ⟨x, rfl⟩
    | ⟨x, y, rfl⟩ | ⟨x, rfl⟩ | ⟨x, y, rfl⟩ | ⟨x, rfl⟩ <;> rfl

/-- C1: the branch entry point is a three-way decision.  A resolver hit
returns that path at once with no creation call, no prompt and no
branch-name validation in the trace; on a miss with an existing local
branch it delegates to existing-branch materialisation, whose trace
holds no base detection or synchronisation (no remote listing, fetch,
rev-parse or any ref query) and whose every worktree-add call attaches
the existing branch without `-b`; otherwise it delegates to new-branch
creation. -/
theorem branch_three_way (e : Env) (target : String) (opts : Opts) :
    (∀ p, (resolveWorktreePath e target).fst = some p →
      branch e target opts = (Except.ok p, (resolveWorktreePath e target).snd)
      ∧ (resolveWorktreePath e target).snd.all
          (fun a => !(isWorktreeAddE a || isPromptE a || isValidateE a)) = true)
    ∧ ((resolveWorktreePath e target).fst = none →
        (branchExistsE e target).fst = true →
        (branch e target opts).fst
          = (createWorktreeForExistingBranch e target opts).fst
        ∧ (createWorktreeForExistingBranch e target opts).snd.all
            (fun a => !(isBaseSyncE a || isShowRefE a)) = true
        ∧ (createWorktreeForExistingBranch e target opts).snd.all
            (worktreeAddArgsOk target) = true)
    ∧ ((resolveWorktreePath e target).fst = none →
        (branchExistsE e target).fst = false →
        (branch e target opts).fst = (createWorktree e target opts).fst) := by
  refine ⟨?_, ?_, ?_⟩
  · intro p hp
    constructor
    · simp [branch, hp]
    · unfold resolveWorktreePath
      by_cases hc : target ∈ e.fsEntries <;>
        simp [hc, isWorktreeAddE, isPromptE, isValidateE]
  · intro h1 h2
    have hb : showRefB e ("refs/heads/" ++ target) = true := by
      simpa [branchExistsE] using h2
    refine ⟨?_, ?_, ?_⟩
    · simp [branch, h1, branchExistsE, hb]
    · exact cwfeb_all e target opts _ (fun s => rfl) rfl rfl (fun s => rfl)
        (fun d => rfl) (fun s => rfl) (fun s d => copy_no_base e s d)
    · refine cwfeb_all e target opts _ (fun s => rfl) rfl rfl (fun s => rfl)
        (fun d => ?_) (fun s => rfl) (fun s d => copy_add_ok target e s d)
      simp [worktreeAddArgsOk]
  · intro h1 h2
    have hb : showRefB e ("refs/heads/" ++ target) = false := by
      simpa [branchExistsE] using h2
    simp [branch, h1, branchExistsE, hb]

/-- Concrete three-way instance: a resolver hit returns the resolved
path with only the filesystem probe in the trace. -/
theorem branch_three_way_witness :
    branch envC1 "demo" {} = (Except.ok "/abs/demo", [Effect.fileExistsQ "demo"]) := by
  have h := (branch_three_way envC1 "demo" {}).1 "/abs/demo" (by decide)
  exact h.1.trans (by decide)

/-- C4 counterexample: with the single remote `my-origin` (so no remote
named `origin` exists), `ensureBaseUpToDate` does not raise the
no-origin error — the substring check passes and the fetch is issued. -/
theorem ensure_base_origin_cex :
    ((splitNl envC4.remotesOutput.toList).map String.mk = ["my-origin"])
    ∧ (("my-origin" : String) ≠ "origin")
    ∧ (ensureBaseUpToDate envC4 "main").fst ≠ Except.error noOriginMsg
    ∧ Effect.fetchA ∈ (ensureBaseUpToDate envC4 "main").snd := by
  refine ⟨by decide, by decide, by decide, by decide⟩

/-- C4 amended: the no-origin error is raised, before any fetch, exactly
when `origin` does not occur as a substring of the `git remote` output;
whenever it does occur as a substring (in particular whenever a remote
is named exactly `origin`, but also when a name merely contains it) the
function proceeds to the fetch. -/
theorem ensure_base_origin_check (e : Env) (base : String) :
    (hasSub ("origin").toList e.remotesOutput.toList = false →
      ensureBaseUpToDate e base = (.error noOriginMsg, [Effect.gitRemoteQ]))
    ∧ (hasSub ("origin").toList e.remotesOutput.toList = true →
      Effect.fetchA ∈ (ensureBaseUpToDate e base).snd
      ∧ (Effect.fetchA ∈ (ensureBaseUpToDate e base).snd ↔
          hasSub ("origin").toList e.remotesOutput.toList = true)) := by
  constructor
  · intro h
    unfold ensureBaseUpToDate
    rw [h]
    simp
  · intro h
    have hm : Effect.fetchA ∈ (ensureBaseUpToDate e base).snd := by
      unfold ensureBaseUpToDate
      rw [if_pos h]
      by_cases hf : e.fetchOk = true
      · rw [if_pos hf]
        by_cases hr : showRefB e ("refs/remotes/origin/" ++ base) = true
        · rw [if_pos hr]
          simp
        · rw [if_neg hr]
          simp
      · rw [if_neg hf]
        simp
    exact ⟨hm, Iff.intro (fun _ => h) (fun _ => hm)⟩

/-- Concrete instance of the amended C4: with no occurrence of `origin`
in the remote list the call stops with the no-origin error and only the
remote listing in its trace. -/
theorem ensure_base_origin_check_witness :
    ensureBaseUpToDate { remotesOutput := "upstream" } "main"
      = (.error noOriginMsg, [Effect.gitRemoteQ]) :=
  (ensure_base_origin_check { remotesOutput := "upstream" } "main").1 (by decide)

/-- C5: `ensureBaseUpToDate` succeeds exactly when the origin substring
check, the fetch and the remote-ref check pass, and the value it then
returns is the rev-parse resolution of `origin/<base>` — the resolved
commit identity the remote-tracking ref points at, obtained through a
`rev-parse` invocation rather than the moving ref name itself. -/
theorem ensure_base_returns_commit (e : Env) (base : String) (v : String) :
    ((ensureBaseUpToDate e base).fst = Except.ok v ↔
      (hasSub ("origin").toList e.remotesOutput.toList = true
        ∧ e.fetchOk = true
        ∧ showRefB e ("refs/remotes/origin/" ++ base) = true
        ∧ v = e.revParse ("origin/" ++ base)))
    ∧ ((ensureBaseUpToDate e base).fst = Except.ok v →
        Effect.revParseQ ("origin/" ++ base) ∈ (ensureBaseUpToDate e base).snd) := by
  unfold ensureBaseUpToDate
  by_cases h1 : hasSub ("origin").toList e.remotesOutput.toList = true
  · rw [if_pos h1]
    by_cases h2 : e.fetchOk = true
    · rw [if_pos h2]
      by_cases h3 : showRefB e ("refs/remotes/origin/" ++ base) = true
      · rw [if_pos h3]
        constructor
        · constructor
          · intro hv
            injection hv with hv2
            exact ⟨h1, h2, h3, hv2.symm⟩
          · rintro ⟨-, -, -, rfl⟩
            rfl
        · intro _
          simp
      · rw [if_neg h3]
        refine ⟨⟨fun hv => absurd hv (by simp), ?_⟩, fun hv => absurd hv (by simp)⟩
        rintro ⟨-, -, hr, -⟩
        exact absurd hr h3
    · rw [if_neg h2]
      refine ⟨⟨fun hv => absurd hv (by simp), ?_⟩, fun hv => absurd hv (by simp)⟩
      rintro ⟨-, hf, -, -⟩
      exact absurd hf h2
  · rw [if_neg h1]
    refine ⟨⟨fun hv => absurd hv (by simp), ?_⟩, fun hv => absurd hv (by simp)⟩
    rintro ⟨ha, -, -, -⟩
    exact absurd ha h1

/-- Concrete instance of C5: on success the returned reference is the
commit id that `rev-parse origin/main` yields, not `origin/main`. -/
theorem ensure_base_returns_commit_witness :
    (ensureBaseUpToDate envC5 "main").fst = Except.ok "abc123"
    ∧ ("abc123" : String) ≠ "origin/main" := by
  constructor
  · exact ((ensure_base_returns_commit envC5 "main" "abc123").1).mpr
      ⟨by decide, by decide, by decide, by decide⟩
  · decide

theorem orphanLoop_fst (e : Env) (ws : List WorktreeItem) :
    (orphanLoop e ws).fst = ws.filterMap (orphanCheck e) := by
  induction ws with
  | nil => rfl
  | cons wt rest ih =>
    cases hb : wt.branch with
    | none => simp [orphanLoop, hb, orphanCheck, List.filterMap_cons, ih]
    | some b =>
      by_cases hbe : (b == "") = true
      · simp [orphanLoop, hb, hbe, orphanCheck, List.filterMap_cons, ih]
      · by_cases hr : showRefB e ("refs/heads/" ++ b) = true
        · simp [orphanLoop, hb, hbe, hr, orphanCheck, List.filterMap_cons, ih]
        · simp [orphanLoop, hb, hbe, hr, orphanCheck, List.filterMap_cons, ih]

/-- C6: orphan detection is the per-record filter `orphanCheck`, which
maps every record without a branch field to nothing; consequently every
reported orphan carries a non-empty branch taken from a record that has
one and whose ref query failed. -/
theorem find_orphans_detached_exempt (e : Env) :
    (findOrphanedWorktrees e).fst
      = (parseWorktreeOutput e.worktreeListOutput).filterMap (orphanCheck e)
    ∧ (∀ wt, wt.branch = none → orphanCheck e wt = none)
    ∧ (∀ o, o ∈ (findOrphanedWorktrees e).fst →
        o.branch ≠ "" ∧ ∃ wt ∈ parseWorktreeOutput e.worktreeListOutput,
          wt.path = o.path ∧ wt.branch = some o.branch
          ∧ showRefB e ("refs/heads/" ++ o.branch) = false) := by
  have hfst : (findOrphanedWorktrees e).fst
      = (parseWorktreeOutput e.worktreeListOutput).filterMap (orphanCheck e) := by
    unfold findOrphanedWorktrees
    exact orphanLoop_fst e _
  refine ⟨hfst, fun wt hw => by simp [orphanCheck, hw], ?_⟩
  intro o ho
  rw [hfst] at ho
  rcases List.mem_filterMap.mp ho with ⟨wt, hwt, hcheck⟩
  cases hb : wt.branch with
  | none =>
    rw [orphanCheck, hb] at hcheck
    dsimp only at hcheck
    cases hcheck
  | some b =>
    rw [orphanCheck, hb] at hcheck
    dsimp only at hcheck
    by_cases hbe : (b == "") = true
    · rw [if_pos hbe] at hcheck; cases hcheck
    · rw [if_neg hbe] at hcheck
      by_cases hr : showRefB e ("refs/heads/" ++ b) = true
      · rw [if_pos hr] at hcheck; cases hcheck
      · rw [if_neg hr] at hcheck
        injection hcheck with hco
        subst hco
        refine ⟨by simpa using hbe, wt, hwt, rfl, hb, by simpa using hr⟩

/-- Concrete instance of C6: only the branch-bearing record is
reported, and it matches a parsed record with a failing ref query. -/
theorem find_orphans_detached_exempt_witness :
    (⟨"/r", "gone"⟩ : OrphanItem).branch ≠ ""
    ∧ ∃ wt ∈ parseWorktreeOutput envC6.worktreeListOutput,
        wt.path = "/r" ∧ wt.branch = some "gone"
        ∧ showRefB envC6 ("refs/heads/" ++ "gone") = false := by
  have h := (find_orphans_detached_exempt envC6).2.2 ⟨"/r", "gone"⟩ (by decide)
  exact h

/-! ## Pruning (C8, C10) -/

theorem orphanLoop_snd_showRef (e : Env) (ws : List WorktreeItem) :
    ∀ a ∈ (orphanLoop e ws).snd, ∃ r, a = Effect.showRefQ r := by
  induction ws with
  | nil => intro a ha; cases ha
  | cons wt rest ih =>
    intro a ha
    unfold orphanLoop at ha
    cases hb : wt.branch with
    | none =>
      rw [hb] at ha
      exact ih a ha
    | some b =>
      rw [hb] at ha
      dsimp only at ha
      by_cases hbe : (b == "") = true
      · rw [if_pos hbe] at ha
        exact ih a ha
      · rw [if_neg hbe] at ha
        by_cases hr : showRefB e ("refs/heads/" ++ b) = true
        · rw [if_pos hr] at ha
          rcases List.mem_cons.mp ha with rfl | ha2
          · exact ⟨_, rfl⟩
          · exact ih a ha2
        · rw [if_neg hr] at ha
          rcases List.mem_cons.mp ha with rfl | ha2
          · exact ⟨_, rfl⟩
          · exact ih a ha2

theorem findOrphaned_snd_no_remove (e : Env) :
    ((findOrphanedWorktrees e).snd.filter isRemoveE) = [] := by
  rw [List.filter_eq_nil_iff]
  intro a ha
  unfold findOrphanedWorktrees at ha
  rcases List.mem_cons.mp ha with rfl | ha2
  · simp [isRemoveE]
  · rcases orphanLoop_snd_showRef e _ a ha2 with ⟨r, rfl⟩
    simp [isRemoveE]

theorem pruneRemovals_filter (e : Env) (os : List OrphanItem) :
    (pruneRemovals e os).filter isRemoveE
      = os.map (fun wt => Effect.worktreeRemove wt.path true) := by
  induction os with
  | nil => rfl
  | cons wt os ih =>
    show ((Effect.worktreeRemove wt.path true
        :: (if e.removeFail wt.path then
              [Effect.consoleErr ("Failed to remove " ++ wt.path ++ ": "
                ++ e.removeErr wt.path)]
            else [Effect.consoleLog ("Removed: " ++ wt.path)]))
        ++ pruneRemovals e os).filter isRemoveE = _
    rw [List.filter_append, ih]
    by_cases hf : e.removeFail wt.path = true
    · rw [if_pos hf]
      rfl
    · rw [if_neg hf]
      rfl

theorem pruneRemovals_reports (e : Env) (os : List OrphanItem) :
    ∀ wt ∈ os, e.removeFail wt.path = true →
      Effect.consoleErr ("Failed to remove " ++ wt.path ++ ": "
        ++ e.removeErr wt.path) ∈ pruneRemovals e os := by
  induction os with
  | nil => intro wt hw; cases hw
  | cons w os ih =>
    intro wt hw hf
    rcases List.mem_cons.mp hw with rfl | hw2
    · show _ ∈ (Effect.worktreeRemove wt.path true :: _) ++ pruneRemovals e os
      rw [if_pos hf]
      exact List.mem_append_left _ (by simp)
    · show _ ∈ (Effect.worktreeRemove w.path true :: _) ++ pruneRemovals e os
      exact List.mem_append_right _ (ih wt hw2 hf)

theorem prune_proceed_trace (e : Env) (o : PruneOpts)
    (hp : (o.yes || e.confirmAnswer) = true)
    (hne : (findOrphanedWorktrees e).fst.isEmpty = false) :
    ∃ pre, (prune e o).snd = pre ++ pruneRemovals e (findOrphanedWorktrees e).fst
      ∧ pre.filter isRemoveE = []
      ∧ (prune e o).fst = Except.ok (findOrphanedWorktrees e).fst.length := by
  unfold prune
  rw [if_neg (by simp [hne])]
  dsimp only
  by_cases hy : o.yes = true
  · rw [if_pos hy]
    dsimp only
    rw [if_pos rfl]
    refine ⟨_, by rw [List.append_nil], ?_, rfl⟩
    rw [List.filter_append, findOrphaned_snd_no_remove,
      List.filter_eq_nil_iff.mpr ?_]
    · rfl
    · intro a ha
      rcases List.mem_cons.mp ha with rfl | ha2
      · simp [isRemoveE]
      · rcases List.mem_map.mp ha2 with ⟨wt, _, rfl⟩
        simp [isRemoveE]
  · rw [if_neg hy]
    dsimp only
    have hc : e.confirmAnswer = true := by
      rcases Bool.or_eq_true_iff.mp hp with h | h
      · exact absurd h hy
      · exact h
    rw [if_pos hc]
    refine ⟨_, rfl, ?_, rfl⟩
    rw [List.filter_append, List.filter_append, findOrphaned_snd_no_remove,
      List.filter_eq_nil_iff.mpr ?_, List.filter_eq_nil_iff.mpr ?_]
    · rfl
    · intro a ha
      rcases List.mem_cons.mp ha with rfl | ha2
      · simp [isRemoveE]
      · cases ha2
    · intro a ha
      rcases List.mem_cons.mp ha with rfl | ha2
      · simp [isRemoveE]
      · rcases List.mem_map.mp ha2 with ⟨wt, _, rfl⟩
        simp [isRemoveE]

/-- C8: per-item pruning failures are isolated.  Once pruning proceeds,
the forced-removal calls in the trace are exactly one per detected
orphan, in order, whatever the pattern of removal failures, and every
failing removal is reported with its error message while the loop
continues. -/
theorem prune_isolates_failures (e : Env) (o : PruneOpts)
    (hp : (o.yes || e.confirmAnswer) = true) :
    ((prune e o).snd.filter isRemoveE)
      = (findOrphanedWorktrees e).fst.map
          (fun wt => Effect.worktreeRemove wt.path true)
    ∧ (∀ wt ∈ (findOrphanedWorktrees e).fst, e.removeFail wt.path = true →
        Effect.consoleErr ("Failed to remove " ++ wt.path ++ ": "
          ++ e.removeErr wt.path) ∈ (prune e o).snd) := by
  by_cases hne : (findOrphanedWorktrees e).fst.isEmpty = true
  · have hnil : (findOrphanedWorktrees e).fst = [] := List.isEmpty_iff.mp hne
    constructor
    · unfold prune
      rw [if_pos hne, hnil]
      dsimp only
      rw [List.filter_append, findOrphaned_snd_no_remove]
      rfl
    · intro wt hw
      rw [hnil] at hw
      cases hw
  · rcases prune_proceed_trace e o hp (Bool.not_eq_true _ ▸ hne) with
      ⟨pre, htr, hpre, _⟩
    constructor
    · rw [htr, List.filter_append, hpre, pruneRemovals_filter]
      rfl
    · intro wt hw hf
      rw [htr]
      exact List.mem_append_right _ (pruneRemovals_reports e _ wt hw hf)

/-- Concrete instance of C8: both forced removals are issued even
though the first one fails, and the failure is reported. -/
theorem prune_isolates_failures_witness :
    ((prune envC8 { yes := true }).snd.filter isRemoveE)
      = [Effect.worktreeRemove "/a" true, Effect.worktreeRemove "/b" true]
    ∧ Effect.consoleErr "Failed to remove /a: locked"
        ∈ (prune envC8 { yes := true }).snd := by
  have h := prune_isolates_failures envC8 { yes := true } (by decide)
  refine ⟨h.1.trans (by decide), ?_⟩
  have h2 := h.2 ⟨"/a", "g1"⟩ (by decide) (by decide)
  exact h2

/-- C10: prune returns the number of orphans it detected, not the
number successfully removed — for every pattern of removal failures it
completes with that detected count once pruning proceeds. -/
theorem prune_returns_detected_count (e : Env) (o : PruneOpts)
    (hp : (o.yes || e.confirmAnswer) = true) :
    (prune e o).fst = Except.ok (findOrphanedWorktrees e).fst.length := by
  by_cases hne : (findOrphanedWorktrees e).fst.isEmpty = true
  · have hnil : (findOrphanedWorktrees e).fst = [] := List.isEmpty_iff.mp hne
    unfold prune
    rw [if_pos hne, hnil]
    rfl
  · rcases prune_proceed_trace e o hp (Bool.not_eq_true _ ▸ hne) with
      ⟨pre, _, _, hfst⟩
    exact hfst

/-- Concrete instance of C10: two orphans detected, both removals fail,
the return value is still 2. -/
theorem prune_returns_detected_count_witness :
    (prune envC8 { yes := true }).fst = Except.ok 2 := by
  have h := prune_returns_detected_count envC8 { yes := true } (by decide)
  exact h.trans (by decide)

/-! ## Port-list validation (C9) -/

theorem validatePortTokens_ok_iff (ts : List (List Char)) :
    validatePortTokens ts = .ok () ↔ ∀ t ∈ ts, validPortTok t = true := by
  induction ts with
  | nil => simp [validatePortTokens]
  | cons t ts ih =>
    by_cases ht : validPortTok t = true
    · simp [validatePortTokens, ht, ih]
    · simp [validatePortTokens, ht]

theorem isDigit_not_ws (c : Char) (h : c.isDigit = true) : isWs c = false := by
  by_contra hw
  have hw2 : isWs c = true := by
    cases hx : isWs c
    · exact absurd hx hw
    · rfl
  unfold isWs at hw2
  simp only [Bool.or_eq_true, decide_eq_true_eq] at hw2
  rcases hw2 with ((rfl | rfl) | rfl) | rfl <;> exact absurd h (by decide)

theorem isDigit_ne (c c2 : Char) (h : c.isDigit = true)
    (h2 : c2.isDigit = false) : ¬(c = c2) := by
  intro e
  subst e
  rw [h] at h2
  cases h2

theorem validPortTok_digits (t : List Char) (hne : t ≠ [])
    (hd : t.all Char.isDigit = true) (h1 : 1 ≤ digitsVal t)
    (h2 : digitsVal t ≤ 65535) : validPortTok t = true := by
  cases t with
  | nil => exact absurd rfl hne
  | cons c r =>
    have hall : ∀ x ∈ c :: r, x.isDigit = true := List.all_eq_true.mp hd
    have hc : c.isDigit = true := hall c (List.mem_cons_self _ _)
    have hdw : (c :: r).dropWhile isWs = c :: r := by
      rw [List.dropWhile_cons, isDigit_not_ws c hc]
      simp
    have htw : (c :: r).takeWhile Char.isDigit = c :: r :=
      List.takeWhile_eq_self_iff.mpr hall
    have hdn : digitsNat (c :: r) = some (digitsVal (c :: r)) := by
      unfold digitsNat
      rw [htw]
      simp
    have hjs : jsParseInt10 (c :: r)
        = (digitsNat (c :: r)).map (fun n => (n : Int)) := by
      unfold jsParseInt10
      rw [hdw]
      simp only [jsParseIntCore]
      rw [if_neg (isDigit_ne c (Char.ofNat 45) hc (by decide)),
        if_neg (isDigit_ne c (Char.ofNat 43) hc (by decide))]
    unfold validPortTok
    rw [hjs, hdn]
    show (match Option.map (fun n => (n : Int)) (some (digitsVal (c :: r))) with
      | none => false
      | some n => decide (1 ≤ n) && decide (n ≤ 65535)) = true
    rw [Option.map_some']
    have g1 : (1 : Int) ≤ (digitsVal (c :: r) : Int) := by exact_mod_cast h1
    have g2 : ((digitsVal (c :: r) : Int)) ≤ 65535 := by exact_mod_cast h2
    simp [g1, g2]

/-- C9 amended: `validatePortList` accepts the empty and whitespace-only
string, and otherwise accepts exactly the comma-separated lists whose
trimmed tokens all parse, under `Number.parseInt` prefix semantics, to a
value in `[1, 65535]`.  Genuine all-digit tokens with value in range are
always accepted, and `0`, `65536` and a digitless token are rejected;
but a token is judged by its longest leading integer prefix, so trailing
garbage after the digits is ignored rather than rejected. -/
theorem validatePortList_semantics (ports : String) :
    (validatePortList ports = .ok () ↔
      ((trimChars ports.toList).isEmpty = true
        ∨ ∀ t ∈ (splitChar ',' ports.toList).map trimChars,
            validPortTok t = true))
    ∧ (∀ t : List Char, t ≠ [] → t.all Char.isDigit = true →
        1 ≤ digitsVal t → digitsVal t ≤ 65535 → validPortTok t = true)
    ∧ validatePortList "" = .ok ()
    ∧ validatePortList "0" ≠ .ok ()
    ∧ validatePortList "65536" ≠ .ok ()
    ∧ validatePortList "abc" ≠ .ok () := by
  refine ⟨?_, validPortTok_digits, by decide, by decide, by decide, by decide⟩
  unfold validatePortList
  by_cases he : (trimChars ports.toList).isEmpty = true
  · rw [if_pos he]
    exact ⟨fun _ => Or.inl he, fun _ => rfl⟩
  · rw [if_neg he]
    rw [validatePortTokens_ok_iff]
    constructor
    · intro h
      exact Or.inr h
    · intro h
      rcases h with h | h
      · exact absurd h he
      · exact h

/-- Concrete instance of the amended C9: a plain in-range list is
accepted. -/
theorem validatePortList_semantics_witness :
    validatePortList "3000,8080" = .ok () := by
  have h := (validatePortList_semantics "3000,8080").1
  exact h.mpr (Or.inr (by decide))

/-- C9 counterexample: the list `80abc` contains a non-numeric token,
yet validation accepts it — `parseInt` keeps the leading `80` and drops
the rest. -/
theorem validatePortList_nonnumeric_cex :
    validatePortList "80abc" = .ok ()
    ∧ (("80abc").toList.all Char.isDigit) = false := by
  exact ⟨by decide, by decide⟩

/-! ## Hook idempotency (C7) -/

theorem isPrefixOf_append_sep (pat : List Char) (sep : Char)
    (hsep : sep ∉ pat) :
    ∀ (u v : List Char), pat.isPrefixOf (u ++ sep :: v) = true →
      pat.isPrefixOf u = true := by
  induction pat with
  | nil =>
    intro u v _
    rw [List.isPrefixOf_iff_prefix]
    exact List.nil_prefix
  | cons p ps ih =>
    intro u v hp
    cases u with
    | nil =>
      simp only [List.nil_append, List.isPrefixOf, Bool.and_eq_true,
        beq_iff_eq] at hp
      exact absurd (hp.1 ▸ List.mem_cons_self p ps) hsep
    | cons x u2 =>
      simp only [List.cons_append, List.isPrefixOf, Bool.and_eq_true,
        beq_iff_eq] at hp ⊢
      exact ⟨hp.1, ih (fun m => hsep (List.mem_cons_of_mem _ m)) u2 v hp.2⟩

theorem countSub_append_sep (pat : List Char) (sep : Char) (h : List Char)
    (hpat : pat ≠ []) (hsep : sep ∉ pat) :
    ∀ (c : List Char), countSub pat c = 0 →
      countSub pat (c ++ sep :: h) = countSub pat h := by
  have hsepline : ∀ w : List Char, pat.isPrefixOf (w ++ sep :: h) = true →
      pat.isPrefixOf w = true := fun w => isPrefixOf_append_sep pat sep hsep w h
  intro c
  induction c with
  | nil =>
    intro _
    have hpref : pat.isPrefixOf (sep :: h) = false := by
      cases hp : pat.isPrefixOf (sep :: h)
      · rfl
      · have h2 := hsepline [] (by simpa using hp)
        cases pat with
        | nil => exact absurd rfl hpat
        | cons p ps => simp [List.isPrefixOf] at h2
    show countSub pat (sep :: h) = countSub pat h
    rw [countSub, hpref]
    simp
  | cons a c2 ih =>
    intro hc
    rw [countSub] at hc
    have hc2 : countSub pat c2 = 0 := by omega
    have hhead : pat.isPrefixOf (a :: c2) = false := by
      by_cases hp : pat.isPrefixOf (a :: c2) = true
      · rw [hp] at hc
        simp at hc
      · exact Bool.not_eq_true _ ▸ hp
    have hhead2 : pat.isPrefixOf ((a :: c2) ++ sep :: h) = false := by
      cases hp : pat.isPrefixOf ((a :: c2) ++ sep :: h)
      · rfl
      · rw [hsepline _ hp] at hhead
        cases hhead
    show countSub pat (a :: (c2 ++ sep :: h)) = countSub pat h
    rw [countSub, show a :: (c2 ++ sep :: h) = (a :: c2) ++ sep :: h from rfl,
      hhead2, ih hc2]
    simp

theorem countSub_hook_append (c : String)
    (hc : countSub pruneMarker.toList c.toList = 0) :
    countSub pruneMarker.toList ((c ++ "\n" ++ hookContent)).toList = 1 := by
  have hshape : ((c ++ "\n" ++ hookContent)).toList
      = c.toList ++ '\n' :: hookContent.toList := by
    rw [toList_append, toList_append, List.append_assoc]
    rfl
  rw [hshape, countSub_append_sep _ _ _ (by decide) (by decide) _ hc]
  decide

/-- C7 amended: running `installPruneHook` twice is idempotent in the
sense the code guarantees — after the first run the hook file contains
the marker (exactly once when the prior state lacked it, and in
particular exactly once from any empty or absent prior hook), and the
second run reports already-installed (`false`), leaves the file
unchanged, and performs no write.  A prior file that already held
several copies of the marker is left as it is, so "exactly one
occurrence for every prior state" does not hold; the second call never
adds one. -/
theorem installPruneHook_idempotent (e : Env) (st : Option String) :
    (installPruneHook e (installPruneHook e st).state).installed = false
    ∧ (installPruneHook e (installPruneHook e st).state).state
        = (installPruneHook e st).state
    ∧ ((installPruneHook e (installPruneHook e st).state).trace.all
        (fun a => !isWriteHookE a)) = true
    ∧ hookCount (installPruneHook e st).state ≠ 0
    ∧ (hookCount st = 0 → hookCount (installPruneHook e st).state = 1) := by
  have hsecond : ∀ c : String, hasSub pruneMarker.toList c.toList = true →
      installPruneHook e (some c) = ⟨false, some c, hookPre e⟩ := by
    intro c h
    simp only [installPruneHook]
    rw [if_pos h]
  have hpre : ((hookPre e).all (fun a => !isWriteHookE a)) = true := rfl
  have key : hookCount (installPruneHook e st).state ≠ 0
      ∧ (hookCount st = 0 → hookCount (installPruneHook e st).state = 1) := by
    cases st with
    | none =>
      have hs1 : (installPruneHook e none).state = some hookContent := rfl
      rw [hs1]
      exact ⟨by decide, fun _ => by decide⟩
    | some c =>
      by_cases h : hasSub pruneMarker.toList c.toList = true
      · have hs1 : (installPruneHook e (some c)).state = some c := by
          rw [hsecond c h]
        rw [hs1]
        have hc0 : countSub pruneMarker.toList c.toList ≠ 0 := by
          unfold hasSub at h
          simpa using h
        exact ⟨hc0, fun h0 => absurd h0 hc0⟩
      · have hc0 : countSub pruneMarker.toList c.toList = 0 := by
          unfold hasSub at h
          simpa using h
        have hs1 : (installPruneHook e (some c)).state
            = some (c ++ "\n" ++ hookContent) := by
          simp only [installPruneHook]
          rw [if_neg h]
        rw [hs1]
        have hone := countSub_hook_append c hc0
        exact ⟨by simpa [hookCount, hookText] using Nat.one_ne_zero ∘ hone.symm.trans,
          fun _ => by simpa [hookCount, hookText] using hone⟩
  have hmarked : ∃ c2, (installPruneHook e st).state = some c2
      ∧ hasSub pruneMarker.toList c2.toList = true := by
    rcases hst : (installPruneHook e st).state with _ | c2
    · exfalso
      apply key.1
      rw [hst]
      rfl
    · refine ⟨c2, rfl, ?_⟩
      have := key.1
      rw [hst] at this
      unfold hasSub
      simpa [hookCount, hookText] using this
  rcases hmarked with ⟨c2, hs, hm⟩
  rw [hs, hsecond c2 hm]
  refine ⟨rfl, rfl, hpre, ?_, ?_⟩
  · rw [← hs]
    exact key.1
  · intro h0
    rw [← hs]
    exact key.2 h0

/-- Concrete instance of C7 amended: from an absent hook file, the
first run installs the script with one marker occurrence and the second
run reports already-installed. -/
theorem installPruneHook_idempotent_witness :
    (installPruneHook {} (installPruneHook ({} : Env) none).state).installed = false
    ∧ hookCount (installPruneHook ({} : Env) none).state = 1 := by
  have h := installPruneHook_idempotent {} none
  exact ⟨h.1, h.2.2.2.2 (by decide)⟩

/-- C7 counterexample: a prior hook file already holding the marker
twice still holds it twice after two runs — the claimed "exactly one
occurrence" fails for this prior state. -/
theorem installPruneHook_two_markers_cex :
    hookCount (installPruneHook {}
        (installPruneHook ({} : Env) (some "twig prune twig prune")).state).state = 2
    ∧ (2 : Nat) ≠ 1 := by
  exact ⟨by decide, by decide⟩
